import Mathlib

/-!
A shallow embedding of `scripts/local/clean_code.py` (repository
`rejourneyco/rejourney`) over `List Char`, together with proofs about it.

Strings are modelled as `List Char`.  Python's whitespace set (`str.strip`,
regex `\s`) is modelled by the six ASCII whitespace characters; Python's
`str.lower` is modelled by `Char.toLower` (both agree on ASCII, which is all
the concrete material in this development uses).  Each `re.sub` call of the
script is embedded as a left-to-right scanner with exactly the leftmost,
shortest-close (for non-greedy `.*?`) behaviour of the Python regex engine on
the concrete pattern at hand; comments on each definition record the pattern
it embeds.
-/

/-- Python `str.isspace` / regex `\s` restricted to ASCII:
space, tab, newline, carriage return, vertical tab, form feed. -/
def pyIsSpace (c : Char) : Bool :=
  c == ' ' || c == '\t' || c == '\n' || c == '\r' || c == '\x0b' || c == '\x0c'

/-- Python `str.lstrip()` (default whitespace). -/
def lstripWs (l : List Char) : List Char := l.dropWhile pyIsSpace

/-- Python `str.rstrip()` (default whitespace). -/
def rstripWs (l : List Char) : List Char := (l.reverse.dropWhile pyIsSpace).reverse

/-- Python `str.strip()` (default whitespace). -/
def pyStrip (l : List Char) : List Char := rstripWs (lstripWs l)

/-- Python `str.lower`, ASCII fragment. -/
def lowerL (l : List Char) : List Char := l.map Char.toLower

/-- If `pre` is a leading run of `l`, return the remainder (literal matching). -/
def chopLit : List Char → List Char → Option (List Char)
  | [], l => some l
  | _, [] => none
  | a :: as, b :: bs => if a = b then chopLit as bs else none

/-- Python's `needle in hay` substring test. -/
def containsSub (needle : List Char) : List Char → Bool
  | [] => (chopLit needle []).isSome
  | c :: cs => (chopLit needle (c :: cs)).isSome || containsSub needle cs

/-- Split on the first occurrence of `stop`: `(before, after)`; `none` if absent.
Embeds the non-greedy `.*?c` idiom (DOTALL): everything up to the first `c`. -/
def upToChar (stop : Char) : List Char → Option (List Char × List Char)
  | [] => none
  | c :: cs =>
    if c = stop then some ([], cs)
    else (upToChar stop cs).map fun p => (c :: p.1, p.2)

/-- Scan for the first `*/`; returns `(inside, after)`.
Embeds `.*?\*/` with `re.DOTALL` (shortest close). -/
def splitAtClose : List Char → Option (List Char × List Char)
  | [] => none
  | '*' :: '/' :: rest => some ([], rest)
  | c :: cs => (splitAtClose cs).map fun p => (c :: p.1, p.2)

/-- Python `content.split('\n')`; `[[]]` on the empty string. -/
def splitOnNl : List Char → List (List Char)
  | [] => [[]]
  | '\n' :: rest => [] :: splitOnNl rest
  | c :: rest =>
    match splitOnNl rest with
    | l :: ls => (c :: l) :: ls
    | [] => [[c]]

/-- Python `'\n'.join(lines)`. -/
def joinNl (ls : List (List Char)) : List Char := List.intercalate ['\n'] ls

/-- `re.match(r'^\s*/\*.*?\*/', content, re.DOTALL)`: leading whitespace, then a
block comment closed at the nearest `*/`; returns the whole match. -/
def blockHeaderMatch (content : List Char) : Option (List Char) :=
  let ws := content.takeWhile pyIsSpace
  match content.dropWhile pyIsSpace with
  | '/' :: '*' :: t =>
    match splitAtClose t with
    | some (inside, _) => some (ws ++ '/' :: '*' :: (inside ++ '*' :: '/' :: []))
    | none => none
  | _ => none

/-- One line of the `//`-header scan: `trimmed.startswith('//') or not trimmed`. -/
def isHeaderLine (l : List Char) : Bool :=
  let t := pyStrip l
  (chopLit ['/', '/'] t).isSome || t.isEmpty

/-- Step 1 of `clean_content`: header extraction.  Returns `(header, rest)`.
Faithful to the source, including the needle `"Copyright"` (capital C) being
tested against the lowercased block in the block-comment branch. -/
def headerAndRest (content : List Char) : List Char × List Char :=
  match blockHeaderMatch content with
  | some block =>
    if containsSub ("Copyright".toList) (lowerL block)
        || containsSub ("license".toList) (lowerL block) then
      (block, content.drop block.length)
    else ([], content)
  | none =>
    let lines := splitOnNl content
    let combined := joinNl (lines.takeWhile isHeaderLine)
    if containsSub ("copyright".toList) (lowerL combined)
        || containsSub ("license".toList) (lowerL combined) then
      (combined, content.drop combined.length)
    else ([], content)

/-- Scanner state machine for `re.sub(r'/\*.*?\*/', '', rest, flags=re.DOTALL)`.
`none` state: outside a comment; `some buf` state: inside a potential comment,
`buf` holding the consumed `/*...` so far (emitted verbatim if never closed,
exactly as the regex makes no match without a closing `*/`). -/
def sbcGo : Option (List Char) → List Char → List Char
  | none, [] => []
  | none, '/' :: '*' :: rest => sbcGo (some ['/', '*']) rest
  | none, c :: cs => c :: sbcGo none cs
  | some buf, [] => buf
  | some _, '*' :: '/' :: rest => sbcGo none rest
  | some buf, c :: cs => sbcGo (some (buf ++ [c])) cs

def stripBlockComments (l : List Char) : List Char := sbcGo none l

/-- The lookbehind guard of `(?<![:"\'/])//.*`: the character before the first
slash must not be `:`, `"`, `'` or `/` (start of text passes). -/
def guardBlocks : Option Char → Bool
  | some ':' => true
  | some '"' => true
  | some '\'' => true
  | some '/' => true
  | _ => false

/-- Scanner for `re.sub(r'(?<![:"\'/])//.*', '', rest)` (no DOTALL: a match
stops before the next newline).  `prev` is the previously scanned character of
the original text (the lookbehind inspects the original string); `inC` marks
that we are inside a matched line comment and dropping characters. -/
def slcGo (prev : Option Char) (inC : Bool) : List Char → List Char
  | [] => []
  | c :: cs =>
    if inC then
      if c = '\n' then '\n' :: slcGo (some '\n') false cs
      else slcGo (some c) true cs
    else if c = '/' && cs.head? == some '/' && !guardBlocks prev then
      slcGo (some '/') true cs
    else c :: slcGo (some c) false cs

def stripLineComments (l : List Char) : List Char := slcGo none false l

/-- `(?:\s*;)?` (greedy): consume whitespace plus one `;` iff the first
non-whitespace character ahead is `;`; otherwise consume nothing. -/
def optSemi (l : List Char) : List Char :=
  match l.dropWhile pyIsSpace with
  | ';' :: rest => rest
  | _ => l

/-- `\s*\(.*?\)(?:\s*;)?` (DOTALL): optional whitespace, `(`, everything up to
the first `)`, optional `;`.  Shared tail of all logging-call patterns. -/
def parenTail (l : List Char) : Option (List Char) :=
  match chopLit ['('] (l.dropWhile pyIsSpace) with
  | some r => (upToChar ')' r).map fun p => optSemi p.2
  | none => none

/-- Alternation `(?:w1|w2|...)` followed by `parenTail`; on failure of the tail
the engine backtracks to the next alternative. -/
def tryAlts : List (List Char) → List Char → Option (List Char)
  | [], _ => none
  | a :: as, l =>
    match chopLit a l with
    | some r =>
      match parenTail r with
      | some r2 => some r2
      | none => tryAlts as l
    | none => tryAlts as l

/-- `NSLog\s*\(.*?\)(?:\s*;)?` anchored at the head. -/
def matchNSLog (l : List Char) : Option (List Char) :=
  (chopLit ("NSLog".toList) l).bind parenTail

/-- `RJLog(?:Debug|Info|Warning|Error)\s*\(.*?\)(?:\s*;)?` anchored at the head. -/
def matchRJLog (l : List Char) : Option (List Char) :=
  (chopLit ("RJLog".toList) l).bind
    (tryAlts ["Debug".toList, "Info".toList, "Warning".toList, "Error".toList])

/-- Candidate scan for `.*?\]\s*\(.*?\)(?:\s*;)?`: successive `]` are tried
until one is followed by `\s*(` with a later `)` (regex backtracking order). -/
def findBrkParen : List Char → Option (List Char)
  | [] => none
  | ']' :: rest =>
    match parenTail rest with
    | some r => some r
    | none => findBrkParen rest
  | _ :: rest => findBrkParen rest

/-- `\[RJLogger\s+.*?\]\s*\(.*?\)(?:\s*;)?` anchored at the head. -/
def matchRJLoggerParen (l : List Char) : Option (List Char) :=
  (chopLit ("[RJLogger".toList) l).bind fun r =>
    match r with
    | c :: _ => if pyIsSpace c then findBrkParen r else none
    | [] => none

/-- `\[RJLogger\s+[^\]]+\](?:\s*;)?` anchored at the head: after the literal, at
least one whitespace character, at least two characters before the first `]`
(`\s+` needs one, `[^\]]+` needs one more; both absorb any non-`]`). -/
def matchRJLoggerBrk (l : List Char) : Option (List Char) :=
  (chopLit ("[RJLogger".toList) l).bind fun r =>
    match r with
    | c :: _ =>
      if pyIsSpace c then
        match upToChar ']' r with
        | some (before, after) =>
          if 2 ≤ before.length then some (optSemi after) else none
        | none => none
      else none
    | [] => none

/-- `[idwev]` then the paren tail. -/
def idwevTail : List Char → Option (List Char)
  | c :: rest =>
    if c = 'i' || c = 'd' || c = 'w' || c = 'e' || c = 'v' then parenTail rest
    else none
  | [] => none

/-- `(?:android\.util\.)?Log\.[idwev]\s*\(.*?\)(?:\s*;)?` anchored at the head;
if the optional prefix matches but the rest fails, the engine retries
without the prefix at the same position. -/
def matchAndroidLog (l : List Char) : Option (List Char) :=
  match (chopLit ("android.util.Log.".toList) l).bind idwevTail with
  | some r => some r
  | none => (chopLit ("Log.".toList) l).bind idwevTail

/-- `Logger\.(?:debug|info|warning|error)\s*\(.*?\)(?:\s*;)?` anchored at the head. -/
def matchLoggerCall (l : List Char) : Option (List Char) :=
  (chopLit ("Logger.".toList) l).bind
    (tryAlts ["debug".toList, "info".toList, "warning".toList, "error".toList])

/-- `println\s*\(.*?\)(?:\s*;)?` anchored at the head. -/
def matchPrintln (l : List Char) : Option (List Char) :=
  (chopLit ("println".toList) l).bind parenTail

/-- Regex `\w` restricted to ASCII: letters, digits, underscore. -/
def isPyWord (c : Char) : Bool := c.isAlphanum || c == '_'

/-- `\w+\.printStackTrace\s*\(.*?\)(?:\s*;)?` anchored at the head: `\w+` is
greedy and `.` is not a word character, so the dot must follow the maximal
word run starting here (which must be nonempty). -/
def matchPst (l : List Char) : Option (List Char) :=
  match l with
  | c :: _ =>
    if isPyWord c then
      (chopLit (".printStackTrace".toList) (l.dropWhile isPyWord)).bind parenTail
    else none
  | [] => none

/-- `console\.(?:log|warn|error|debug|info|trace|table)\s*\(.*?\)(?:\s*;)?`
anchored at the head. -/
def matchConsole (l : List Char) : Option (List Char) :=
  (chopLit ("console.".toList) l).bind
    (tryAlts ["log".toList, "warn".toList, "error".toList, "debug".toList,
      "info".toList, "trace".toList, "table".toList])

/-- `re.sub(pattern, '', text)` for an anchored matcher `m`: leftmost scan,
skipping each match and resuming right after it.  `fuel` is initialised to the
text length; every successful match of the patterns above consumes at least
one character, so the fuel never runs out before the text does. -/
def subP (m : List Char → Option (List Char)) : Nat → List Char → List Char
  | _, [] => []
  | 0, l => l
  | fuel + 1, c :: cs =>
    match m (c :: cs) with
    | some rest => subP m fuel rest
    | none => c :: subP m fuel cs

def runSub (m : List Char → Option (List Char)) (l : List Char) : List Char :=
  subP m l.length l

/-- The nine logging-pattern substitutions, in source order
(iOS, then Android, then web). -/
def stripLogs (l : List Char) : List Char :=
  runSub matchConsole
    (runSub matchPst
      (runSub matchPrintln
        (runSub matchLoggerCall
          (runSub matchAndroidLog
            (runSub matchRJLoggerBrk
              (runSub matchRJLoggerParen
                (runSub matchRJLog
                  (runSub matchNSLog
                    (l)))))))))

/-- Replacement for one maximal whitespace run under
`re.sub(r'\n\s*\n\s*\n+', '\n\n', rest)`: a run containing at least three
newlines has the span from its first to its last newline replaced by two
newlines (the engine's leftmost match starts at the run's first newline and,
after greedy backtracking, ends at the run's last newline); other runs are
untouched. -/
def collapseRun (run : List Char) : List Char :=
  if 3 ≤ run.count '\n' then
    run.takeWhile (fun c => c != '\n') ++ '\n' :: '\n' ::
      (run.reverse.takeWhile (fun c => c != '\n')).reverse
  else run

/-- Driver for the blank-line collapse: accumulate the current maximal
whitespace run in `acc` and flush it through `collapseRun` at each
non-whitespace character and at the end. -/
def collapseGo (acc : List Char) : List Char → List Char
  | [] => collapseRun acc
  | c :: cs =>
    if pyIsSpace c then collapseGo (acc ++ [c]) cs
    else collapseRun acc ++ c :: collapseGo [] cs

def collapse (l : List Char) : List Char := collapseGo [] l

/-- Checker: some maximal whitespace run contains at least three newlines
(`k` counts the newlines of the current run). -/
def runNl (k : Nat) : List Char → Bool
  | [] => false
  | c :: cs =>
    if c = '\n' then (if 3 ≤ k + 1 then true else runNl (k + 1) cs)
    else if pyIsSpace c then runNl k cs
    else runNl 0 cs

def hasTripleRun (l : List Char) : Bool := runNl 0 l

/-- The text ends in exactly one newline: last character `'\n'`, and the
character before it (if any) is not `'\n'`. -/
def endsOneNl (l : List Char) : Bool :=
  match l.reverse with
  | [] => false
  | c :: rest => decide (c = '\n') && !(decide (rest.head? = some '\n'))

/-- Steps 2-5 of `clean_content` applied to the part after the header:
block comments, line comments, the nine log patterns, blank-line collapse,
then `rest.strip()`. -/
def cleanBody (content : List Char) : List Char :=
  pyStrip (collapse (stripLogs (stripLineComments (stripBlockComments
    ((headerAndRest content).2)))))

/-- `result = header + '\n\n' + rest if header else rest`. -/
def reassemble (header body : List Char) : List Char :=
  if header = [] then body else header ++ '\n' :: '\n' :: body

/-- `clean_content(content, ext)` of `scripts/local/clean_code.py`.
The extension argument is accepted and, as in the source, never used.
Returns `result.strip() + '\n'`. -/
def clean_content (content ext : List Char) : List Char :=
  pyStrip (reassemble (headerAndRest content).1 (cleanBody content)) ++ ['\n']

/-- A file visited by `os.walk`: the directory it sits in (`root` in the
source), its name, its on-disk content, and a `readable` flag modelling the
per-file exceptions the script catches (read/decode/write errors). -/
structure SrcFile where
  dir : List Char
  name : List Char
  content : List Char
  readable : Bool
deriving DecidableEq

/-- `os.path.splitext(file)[1].lower()`: the extension from the last dot,
lowercased; empty when there is no dot or the only dot leads the name. -/
def extOf (name : List Char) : List Char :=
  let tailR := name.reverse.takeWhile (fun c => c != '.')
  if tailR.length = name.length then []
  else if name.length = tailR.length + 1 then []
  else lowerL ('.' :: tailR.reverse)

/-- The module-level `EXTENSIONS` set. -/
def EXTENSIONS : List (List Char) :=
  [".swift".toList, ".m".toList, ".h".toList, ".kt".toList, ".java".toList,
    ".ts".toList, ".tsx".toList, ".js".toList, ".jsx".toList]

/-- `'node_modules' in root or 'build' in root or '.gradle' in root`. -/
def skipDir (root : List Char) : Bool :=
  containsSub ("node_modules".toList) root || containsSub ("build".toList) root
    || containsSub (".gradle".toList) root

/-- One iteration of the inner loop of `process_directory`: returns the file's
new on-disk state and the counter increment.  Skipped directories and
non-matching extensions are ignored; an unreadable file raises, is caught and
left unmodified; otherwise the file is rewritten with the cleaned content only
when it differs and the run is not a dry run. -/
def processFile (dryRun : Bool) (f : SrcFile) : SrcFile × Nat :=
  if skipDir f.dir then (f, 0)
  else if extOf f.name ∈ EXTENSIONS then
    if f.readable then
      let cleaned := clean_content f.content (extOf f.name)
      if cleaned ≠ f.content then
        (if dryRun then (f, 1) else (⟨f.dir, f.name, cleaned, f.readable⟩, 1))
      else (f, 0)
    else (f, 0)
  else (f, 0)

/-- `process_directory(directory, dry_run)`: the walked files in order, giving
the final on-disk contents and the printed change count. -/
def process_directory : List SrcFile → Bool → List SrcFile × Nat
  | [], _ => ([], 0)
  | f :: fs, dryRun =>
    let p := processFile dryRun f
    let r := process_directory fs dryRun
    (p.1 :: r.1, p.2 + r.2)

/-- The `__main__` block after argument parsing: `runFlag` and `dryFlag` are
the parsed `--run` and `--dry-run` booleans.  A missing target root prints an
error and exits with status 1 before any processing; otherwise the directory
is processed with `is_dry_run = not args.run` (the parsed `dry_run` value is
never consulted) and the process exits with status 0.  Returns
(exit status, final file contents). -/
def mainRun (targetExists runFlag dryFlag : Bool) (files : List SrcFile) :
    Nat × List SrcFile :=
  if targetExists then (0, (process_directory files (!runFlag)).1)
  else (1, files)

/-- A concrete candidate file whose content the cleaner changes: used to
exhibit runner behaviour at a specific input. -/
def exampleFile : SrcFile :=
  ⟨"pkg".toList, "a.ts".toList, "console.log(1);\nfoo();".toList, true⟩

/-! ## Lemmas about the Python string primitives -/

theorem dropWhile_head_false {p : Char → Bool} :
    ∀ {l : List Char} {c : Char} {cs : List Char},
      l.dropWhile p = c :: cs → p c = false := by
  intro l
  induction l with
  | nil => intro c cs h; simp [List.dropWhile] at h
  | cons a t ih =>
    intro c cs h
    rw [List.dropWhile_cons] at h
    split at h
    · exact ih h
    · cases h
      simp_all

theorem lstripWs_append_pos {a b : List Char} (h : ∀ c ∈ a, pyIsSpace c = true) :
    lstripWs (a ++ b) = lstripWs b := by
  simp [lstripWs, List.dropWhile_append_of_pos h]

theorem lstripWs_append_neg {a b : List Char}
    (h : ¬ ∀ c ∈ a, pyIsSpace c = true) :
    lstripWs (a ++ b) = lstripWs a ++ b := by
  have hne : a.dropWhile pyIsSpace ≠ [] := by
    intro hnil
    exact h (List.dropWhile_eq_nil_iff.mp hnil)
  simp only [lstripWs, List.dropWhile_append]
  rw [if_neg (by simpa [List.isEmpty_iff] using hne)]

theorem lstripWs_allWs {a : List Char} (h : ∀ c ∈ a, pyIsSpace c = true) :
    lstripWs a = [] :=
  List.dropWhile_eq_nil_iff.mpr h

theorem rstripWs_append_pos {a b : List Char} (h : ∀ c ∈ b, pyIsSpace c = true) :
    rstripWs (a ++ b) = rstripWs a := by
  simp only [rstripWs, List.reverse_append]
  rw [List.dropWhile_append_of_pos (by intro c hc; exact h c (List.mem_reverse.mp hc))]

theorem rstripWs_append_neg {a b : List Char}
    (h : ¬ ∀ c ∈ b, pyIsSpace c = true) :
    rstripWs (a ++ b) = a ++ rstripWs b := by
  have hne : b.reverse.dropWhile pyIsSpace ≠ [] := by
    intro hnil
    refine h fun c hc => ?_
    exact List.dropWhile_eq_nil_iff.mp hnil c (List.mem_reverse.mpr hc)
  simp only [rstripWs, List.reverse_append, List.dropWhile_append]
  rw [if_neg (by simpa [List.isEmpty_iff] using hne)]
  simp

theorem rstripWs_isPrefix (l : List Char) : rstripWs l <+: l := by
  refine ⟨(l.reverse.takeWhile pyIsSpace).reverse, ?_⟩
  rw [rstripWs, ← List.reverse_append, List.takeWhile_append_dropWhile,
    List.reverse_reverse]

theorem lstripWs_idem (l : List Char) : lstripWs (lstripWs l) = lstripWs l := by
  cases h : lstripWs l with
  | nil => simp [lstripWs]
  | cons c cs =>
    have hc : pyIsSpace c = false := dropWhile_head_false h
    simp [lstripWs, List.dropWhile_cons, hc]

theorem rstripWs_idem (l : List Char) : rstripWs (rstripWs l) = rstripWs l := by
  simp only [rstripWs, List.reverse_reverse]
  congr 1
  cases h : l.reverse.dropWhile pyIsSpace with
  | nil => simp
  | cons c cs =>
    have hc : pyIsSpace c = false := dropWhile_head_false h
    simp [List.dropWhile_cons, hc]

theorem lstripWs_rstripWs_lstripWs (l : List Char) :
    lstripWs (rstripWs (lstripWs l)) = rstripWs (lstripWs l) := by
  cases h : rstripWs (lstripWs l) with
  | nil => simp [lstripWs]
  | cons c cs =>
    obtain ⟨t, ht⟩ := rstripWs_isPrefix (lstripWs l)
    rw [h] at ht
    have hhead : lstripWs l = c :: (cs ++ t) := by rw [← ht]; simp
    have hc : pyIsSpace c = false := dropWhile_head_false hhead
    simp [lstripWs, List.dropWhile_cons, hc]

theorem pyStrip_idem (l : List Char) : pyStrip (pyStrip l) = pyStrip l := by
  simp only [pyStrip]
  rw [lstripWs_rstripWs_lstripWs, rstripWs_idem]

theorem rstripWs_pyStrip (l : List Char) : rstripWs (pyStrip l) = pyStrip l := by
  simp only [pyStrip]
  exact rstripWs_idem (lstripWs l)

theorem pyStrip_append_ws {a b : List Char} (h : ∀ c ∈ b, pyIsSpace c = true) :
    pyStrip (a ++ b) = pyStrip a := by
  by_cases ha : ∀ c ∈ a, pyIsSpace c = true
  · have h1 : lstripWs (a ++ b) = [] :=
      lstripWs_allWs (by intro c hc; rcases List.mem_append.mp hc with hc | hc
                         exacts [ha c hc, h c hc])
    have h2 : lstripWs a = [] := lstripWs_allWs ha
    simp [pyStrip, h1, h2]
  · rw [pyStrip, lstripWs_append_neg ha, rstripWs_append_pos h, pyStrip]

/-- Reassembly analysis for a retained header `h`: the final whole-result
`strip` can only trim whitespace at the outer edges, so the trimmed header is
a prefix of the final output. -/
theorem header_strip_isPrefix (h r : List Char) :
    pyStrip h <+: pyStrip (h ++ '\n' :: '\n' :: pyStrip r) ++ ['\n'] := by
  by_cases hw : ∀ c ∈ h, pyIsSpace c = true
  · have hnil : pyStrip h = [] := by
      simp [pyStrip, lstripWs_allWs hw, rstripWs, List.dropWhile]
    rw [hnil]
    exact List.nil_prefix
  · have hl : lstripWs (h ++ '\n' :: '\n' :: pyStrip r)
        = lstripWs h ++ '\n' :: '\n' :: pyStrip r := lstripWs_append_neg hw
    by_cases hs : ∀ c ∈ pyStrip r, pyIsSpace c = true
    · have hb : ∀ c ∈ ('\n' :: '\n' :: pyStrip r), pyIsSpace c = true := by
        intro c hc
        rcases List.mem_cons.mp hc with rfl | hc
        · rfl
        · rcases List.mem_cons.mp hc with rfl | hc
          · rfl
          · exact hs c hc
      have hps : pyStrip (h ++ '\n' :: '\n' :: pyStrip r) = pyStrip h := by
        rw [pyStrip, hl, rstripWs_append_pos hb]
        rfl
      rw [hps]
      exact List.prefix_append _ _
    · have hps : pyStrip (h ++ '\n' :: '\n' :: pyStrip r)
          = lstripWs h ++ '\n' :: '\n' :: pyStrip r := by
        rw [pyStrip, hl,
          show ('\n' :: '\n' :: pyStrip r) = ['\n', '\n'] ++ pyStrip r from rfl,
          ← List.append_assoc, rstripWs_append_neg hs, rstripWs_pyStrip,
          List.append_assoc]
      rw [hps]
      have h1 : pyStrip h <+: lstripWs h := rstripWs_isPrefix (lstripWs h)
      refine h1.trans ?_
      rw [List.append_assoc]
      exact List.prefix_append _ _

/-! ## Lemmas about the whitespace collapse pass -/

theorem collapseRun_allWs {run : List Char} (h : ∀ c ∈ run, pyIsSpace c = true) :
    ∀ c ∈ collapseRun run, pyIsSpace c = true := by
  intro c hc
  rw [collapseRun] at hc
  split at hc
  · rcases List.mem_append.mp hc with hc | hc
    · exact h c ((List.takeWhile_sublist _).subset hc)
    · rcases List.mem_cons.mp hc with rfl | hc
      · rfl
      · rcases List.mem_cons.mp hc with rfl | hc
        · rfl
        · exact h c (List.mem_reverse.mp
            ((List.takeWhile_sublist _).subset (List.mem_reverse.mp hc)))
  · exact h c hc

theorem collapseRun_count {run : List Char} (h : 3 ≤ run.count '\n') :
    (collapseRun run).count '\n' = 2 := by
  rw [collapseRun, if_pos h]
  have hlead : (run.takeWhile (fun c => c != '\n')).count '\n' = 0 := by
    rw [List.count_eq_zero]
    intro hmem
    have := List.mem_takeWhile_imp hmem
    simp at this
  have htrail : ((run.reverse.takeWhile (fun c => c != '\n')).reverse).count '\n' = 0 := by
    rw [List.count_eq_zero]
    intro hmem
    have := List.mem_takeWhile_imp (List.mem_reverse.mp hmem)
    simp at this
  simp [List.count_append, List.count_cons, hlead, htrail]

theorem collapseRun_count_le (run : List Char) : (collapseRun run).count '\n' ≤ 2 := by
  by_cases h : 3 ≤ run.count '\n'
  · rw [collapseRun_count h]
  · rw [collapseRun, if_neg h]
    omega

theorem runNl_ws_append (run rest : List Char) (k : Nat)
    (hws : ∀ c ∈ run, pyIsSpace c = true) (hcnt : k + run.count '\n' < 3)
    (hrest : rest = [] ∨ ∃ c cs, rest = c :: cs ∧ pyIsSpace c = false) :
    runNl k (run ++ rest) = runNl 0 rest := by
  induction run generalizing k with
  | nil =>
    rcases hrest with rfl | ⟨c, cs, rfl, hc⟩
    · rfl
    · have hcn : ¬ c = '\n' := by
        intro h
        rw [h] at hc
        simp [pyIsSpace] at hc
      simp [runNl, hcn, hc]
  | cons d run' ih =>
    have hd := hws d (List.mem_cons_self d run')
    have hws' : ∀ c ∈ run', pyIsSpace c = true :=
      fun c hc => hws c (List.mem_cons_of_mem _ hc)
    by_cases hdn : d = '\n'
    · subst hdn
      simp only [List.count_cons, if_pos rfl] at hcnt
      simp at hcnt
      have h3 : ¬ 3 ≤ k + 1 := by omega
      rw [List.cons_append, runNl, if_pos rfl, if_neg h3]
      exact ih (k + 1) hws' (by omega)
    · have hcnt' : k + run'.count '\n' < 3 := by
        simp only [List.count_cons] at hcnt
        simp [hdn] at hcnt
        omega
      rw [List.cons_append, runNl, if_neg hdn, if_pos hd]
      exact ih k hws' hcnt'

theorem collapse_noTriple :
    ∀ (l acc : List Char), (∀ c ∈ acc, pyIsSpace c = true) →
      runNl 0 (collapseGo acc l) = false := by
  intro l
  induction l with
  | nil =>
    intro acc hacc
    show runNl 0 (collapseRun acc) = false
    have h := runNl_ws_append (collapseRun acc) [] 0 (collapseRun_allWs hacc)
      (by have := collapseRun_count_le acc; omega) (Or.inl rfl)
    rw [List.append_nil] at h
    rw [h]
    rfl
  | cons c cs ih =>
    intro acc hacc
    by_cases hc : pyIsSpace c = true
    · rw [collapseGo, if_pos hc]
      refine ih _ fun d hd => ?_
      rcases List.mem_append.mp hd with hd | hd
      · exact hacc d hd
      · rcases List.mem_singleton.mp hd with rfl
        exact hc
    · rw [collapseGo, if_neg hc]
      rw [runNl_ws_append (collapseRun acc) (c :: collapseGo [] cs) 0
        (collapseRun_allWs hacc)
        (by have := collapseRun_count_le acc; omega)
        (Or.inr ⟨c, collapseGo [] cs, rfl, by simpa using hc⟩)]
      have hcn : ¬ c = '\n' := by
        intro h
        rw [h] at hc
        simp [pyIsSpace] at hc
      rw [runNl, if_neg hcn, if_neg hc]
      exact ih [] (by intro d hd; simp at hd)

theorem collapseGo_nil_nonws {l : List Char}
    (h : ∀ c ∈ l, pyIsSpace c = false) : collapseGo [] l = l := by
  induction l with
  | nil => rfl
  | cons c cs ih =>
    have hc := h c (List.mem_cons_self c cs)
    rw [collapseGo, if_neg (by simp [hc])]
    rw [ih fun d hd => h d (List.mem_cons_of_mem _ hd)]
    rfl

theorem collapseGo_nonws_append :
    ∀ (a t : List Char), (∀ c ∈ a, pyIsSpace c = false) →
      collapseGo [] (a ++ t) = a ++ collapseGo [] t := by
  intro a
  induction a with
  | nil =>
    intro t _
    simp
  | cons x a' ih =>
    intro t h
    have hx := h x (List.mem_cons_self x a')
    rw [List.cons_append, collapseGo, if_neg (by simp [hx])]
    rw [ih t fun c hc => h c (List.mem_cons_of_mem _ hc)]
    rfl

theorem collapse_two_blank_lines (a b : List Char) (ha : a ≠ []) (hb : b ≠ [])
    (h1 : ∀ c ∈ a, pyIsSpace c = false) (h2 : ∀ c ∈ b, pyIsSpace c = false) :
    collapse (a ++ '\n' :: '\n' :: '\n' :: b) = a ++ '\n' :: '\n' :: b := by
  cases b with
  | nil => exact absurd rfl hb
  | cons d b' =>
    have hd := h2 d (List.mem_cons_self d b')
    rw [collapse, collapseGo_nonws_append a _ h1]
    have step : collapseGo [] ('\n' :: '\n' :: '\n' :: d :: b')
        = collapseGo ['\n', '\n', '\n'] (d :: b') := rfl
    rw [step, collapseGo, if_neg (by simp [hd])]
    rw [collapseGo_nil_nonws fun c hc => h2 c (List.mem_cons_of_mem _ hc)]
    rfl

/-! ## Lemmas about the runner -/

theorem processFile_dry (f : SrcFile) : (processFile true f).1 = f := by
  simp only [processFile, if_true]
  repeat' split
  all_goals rfl

theorem process_directory_dry :
    ∀ files : List SrcFile, (process_directory files true).1 = files := by
  intro files
  induction files with
  | nil => rfl
  | cons f fs ih =>
    rw [process_directory]
    simp [processFile_dry, ih]

theorem pyStrip_newline (A : List Char) : pyStrip (A ++ ['\n']) = pyStrip A :=
  pyStrip_append_ws (by decide)

theorem endsOneNl_pyStrip (R : List Char) :
    endsOneNl (pyStrip R ++ ['\n']) = true := by
  have hrev : (pyStrip R ++ ['\n']).reverse
      = '\n' :: (lstripWs R).reverse.dropWhile pyIsSpace := by
    rw [List.reverse_append]
    simp [pyStrip, rstripWs]
  cases h : (lstripWs R).reverse.dropWhile pyIsSpace with
  | nil => simp [endsOneNl, hrev, h]
  | cons c t =>
    have hc : pyIsSpace c = false := dropWhile_head_false h
    have hcn : ¬ c = '\n' := by
      intro hh
      rw [hh] at hc
      simp [pyIsSpace] at hc
    simp [endsOneNl, hrev, h, hcn]

/-! ## Claim theorems -/

/-- C1: the claim says a leading block comment containing the literal word
"Copyright" is retained verbatim as a protected header.  The code lowercases
the block but compares it against the needle `"Copyright"` with a capital C,
which can never occur in a lowercased string, so such a header is dropped and
stripped with the other comments: at the failing input below the whole block
comment disappears from the output.  (The sibling line-comment branch uses the
lowercase needle `"copyright"`, and the docstring announces header
preservation, so the claim matches the intent and the code is a slip.) -/
theorem C1_copyright_block_dropped :
    clean_content ("/* Copyright 2024 Acme */\nfoo();".toList) (".swift".toList)
      = "foo();\n".toList ∧
    containsSub ("Copyright".toList)
      (clean_content ("/* Copyright 2024 Acme */\nfoo();".toList)
        (".swift".toList)) = false :=
  ⟨rfl, rfl⟩

/-- C2 counterexample: a retained header that starts with whitespace (the block
match `^\s*/\*.*?\*/` includes the leading whitespace in the header span) does
not reappear verbatim in the output: the final whole-result `strip()` removes
its leading newline. -/
theorem C2_counterexample :
    (headerAndRest ("\n/* license */\nfoo();".toList)).1
      = "\n/* license */".toList ∧
    containsSub ((headerAndRest ("\n/* license */\nfoo();".toList)).1)
      (clean_content ("\n/* license */\nfoo();".toList) (".ts".toList))
      = false :=
  ⟨rfl, rfl⟩

/-- C2 (amended): the stripping passes never touch a retained header and it is
reattached exactly as extracted; the only later alteration is the final
whole-output trim, which can remove whitespace at the header's outer edges.
Hence the trimmed header is always a verbatim prefix of the output. -/
theorem C2_header_trimmed_prefix (x e : List Char)
    (hne : (headerAndRest x).1 ≠ []) :
    pyStrip ((headerAndRest x).1) <+: clean_content x e := by
  have hre : reassemble (headerAndRest x).1 (cleanBody x)
      = (headerAndRest x).1 ++ '\n' :: '\n' :: cleanBody x := by
    rw [reassemble, if_neg hne]
  rw [clean_content, hre, cleanBody]
  exact header_strip_isPrefix _ _

theorem C2_header_trimmed_prefix_witness :
    (headerAndRest ("/* license */\ncode;".toList)).1 ≠ [] ∧
    pyStrip ((headerAndRest ("/* license */\ncode;".toList)).1)
      <+: clean_content ("/* license */\ncode;".toList) (".ts".toList) :=
  ⟨by decide, C2_header_trimmed_prefix _ _ (by decide)⟩

/-- C3 counterexample: `clean_content` is not idempotent.  Removing the
logging call from `/NSLog(a)* hello */` splices the remaining characters into
the block comment `/* hello */`, which a second application then strips:
the first pass yields `/* hello */\n`, the second `\n`. -/
theorem C3_counterexample :
    clean_content
        (clean_content ("/NSLog(a)* hello */".toList) (".m".toList))
        (".m".toList)
      ≠ clean_content ("/NSLog(a)* hello */".toList) (".m".toList) := by
  decide

/-- C3 (amended): re-cleaning changes nothing precisely when the cleaned text
is itself left untouched by header extraction and by each stripping/collapse
pass; idempotence fails in general because a pass can splice together a new
comment or logging span (see the counterexample). -/
theorem C3_idempotent_when_stable (x e : List Char)
    (h0 : headerAndRest (clean_content x e) = ([], clean_content x e))
    (h1 : stripBlockComments (clean_content x e) = clean_content x e)
    (h2 : stripLineComments (clean_content x e) = clean_content x e)
    (h3 : stripLogs (clean_content x e) = clean_content x e)
    (h4 : collapse (clean_content x e) = clean_content x e) :
    clean_content (clean_content x e) e = clean_content x e := by
  have hh1 : (headerAndRest (clean_content x e)).1 = [] := by rw [h0]
  have hh2 : (headerAndRest (clean_content x e)).2 = clean_content x e := by
    rw [h0]
  have hbody : cleanBody (clean_content x e) = pyStrip (clean_content x e) := by
    rw [cleanBody, hh2, h1, h2, h3, h4]
  have hstrip : pyStrip (clean_content x e)
      = pyStrip (reassemble (headerAndRest x).1 (cleanBody x)) := by
    rw [clean_content, pyStrip_newline, pyStrip_idem]
  rw [clean_content, hh1, hbody]
  show pyStrip (pyStrip (clean_content x e)) ++ ['\n'] = clean_content x e
  rw [pyStrip_idem, hstrip]
  rfl

theorem C3_idempotent_when_stable_witness :
    clean_content
        (clean_content ("x = 1;\ny = 2;".toList) (".ts".toList))
        (".ts".toList)
      = clean_content ("x = 1;\ny = 2;".toList) (".ts".toList) :=
  C3_idempotent_when_stable _ _ (by decide) (by decide) (by decide) (by decide)
    (by decide)

/-- C4: in dry-run mode `process_directory` writes nothing: the on-disk
content of every visited file is unchanged, however many files differ from
their cleaned form. -/
theorem C4_dry_run_no_writes :
    ∀ files : List SrcFile, (process_directory files true).1 = files :=
  process_directory_dry

/-- C5: the output of `clean_content` does not depend on the extension
argument: the pattern list is applied uniformly and the extension is never
consulted. -/
theorem C5_output_independent_of_extension :
    ∀ (x e1 e2 : List Char), clean_content x e1 = clean_content x e2 :=
  fun _ _ _ => rfl

/-- C6: for every input (including the empty one) the output of
`clean_content` ends in exactly one newline: its last character is `'\n'`
and the character before it, if any, is not. -/
theorem C6_trailing_newline :
    ∀ (x e : List Char), endsOneNl (clean_content x e) = true :=
  fun x _ => endsOneNl_pyStrip (reassemble (headerAndRest x).1 (cleanBody x))

/-- C7: the whitespace-collapse pass leaves no whitespace run containing three
or more newlines (first conjunct); a run that did contain three or more
newlines comes out with exactly two, i.e. exactly one blank line (second
conjunct); and concretely an input with 5 blank lines between two statements
yields exactly one blank line between them (third conjunct). -/
theorem C7_blank_run_collapse :
    (∀ l : List Char, hasTripleRun (collapse l) = false) ∧
    (∀ run : List Char, 3 ≤ run.count '\n' →
      (collapseRun run).count '\n' = 2) ∧
    clean_content ("a;\n\n\n\n\n\nb;".toList) (".ts".toList)
      = "a;\n\nb;\n".toList :=
  ⟨fun l => collapse_noTriple l [] (by intro c hc; simp at hc),
   fun _ h => collapseRun_count h, rfl⟩

theorem C7_blank_run_collapse_witness :
    hasTripleRun (collapse (" \nx\n\n\n\ny".toList)) = false ∧
    (collapseRun ("\n \n \n".toList)).count '\n' = 2 :=
  ⟨C7_blank_run_collapse.1 _, C7_blank_run_collapse.2.1 _ (by decide)⟩

/-- C8: the process exits with a non-zero status iff the target root is
missing, in which case it aborts before touching any file; with the root
present the exit status is 0 regardless of per-file errors (unreadable files
are caught and skipped inside `process_directory`). -/
theorem C8_exit_status (te rf df : Bool) (files : List SrcFile) :
    ((mainRun te rf df files).1 ≠ 0 ↔ te = false) ∧
    (te = false → (mainRun te rf df files).2 = files) := by
  cases te <;> simp [mainRun]

theorem C8_exit_status_witness :
    ((mainRun false true true []).1 ≠ 0) ∧
    (mainRun false true true []).2 = ([] : List SrcFile) :=
  ⟨(C8_exit_status false true true []).1.mpr rfl,
   (C8_exit_status false true true []).2 rfl⟩

/-- C9 counterexample: passing `--dry-run` does not guarantee a dry run.
`args.dry_run` is parsed but never read; the mode is `not args.run` alone, so
with both `--run` and `--dry-run` on the command line (both flags true below)
a differing file is rewritten. -/
theorem C9_dry_run_flag_ignored :
    (mainRun true true true [exampleFile]).2 ≠ [exampleFile] := by
  decide

/-- C9 (amended): dry-run mode is selected exactly when `--run` is absent;
the `--dry-run` flag itself is ignored.  Whenever `--run` is absent — whatever
the value of the `--dry-run` flag — no file is written. -/
theorem C9_no_run_means_no_writes (df : Bool) (files : List SrcFile) :
    (mainRun true false df files).2 = files :=
  process_directory_dry files

/-- C10: the collapse pass also collapses runs of exactly two blank lines
(three consecutive newlines) between two statements down to a single blank
line (two newlines), both in general (first conjunct) and through the full
cleaner on a concrete input (second conjunct). -/
theorem C10_two_blank_lines_collapse :
    (∀ a b : List Char, a ≠ [] → b ≠ [] → (∀ c ∈ a, pyIsSpace c = false) →
      (∀ c ∈ b, pyIsSpace c = false) →
      collapse (a ++ '\n' :: '\n' :: '\n' :: b) = a ++ '\n' :: '\n' :: b) ∧
    clean_content ("a;\n\n\nb;".toList) (".ts".toList) = "a;\n\nb;\n".toList :=
  ⟨collapse_two_blank_lines, rfl⟩

theorem C10_two_blank_lines_collapse_witness :
    collapse (['q', ';'] ++ '\n' :: '\n' :: '\n' :: ['r', ';'])
      = ['q', ';'] ++ '\n' :: '\n' :: ['r', ';'] :=
  C10_two_blank_lines_collapse.1 ['q', ';'] ['r', ';'] (by decide) (by decide)
    (by decide) (by decide)
